import Mathlib

set_option maxHeartbeats 1000000

/-!
Verification of the `hugtug` command-line fetcher (`src/main.rs`).

Strings are modelled as `List Char`. The single network/filesystem
boundary of each operation is made explicit: `fetch_manifest` is stated
over an already-decoded metadata response, `repo_id_from_url` over the
result of the external URL parser, and `download_model` over an
environment recording the outcome of each external action, producing an
event trace and the final destination-file content.
-/

/-- model of Rust `str::split_once(sep)` on a character list: splits at
the first occurrence of `sep`, returning the pieces before and after it,
or `none` when `sep` does not occur (used at `main.rs:108`). -/
def splitOnce (sep : Char) : List Char → Option (List Char × List Char)
  | [] => none
  | c :: rest =>
    if c = sep then some ([], rest)
    else
      match splitOnce sep rest with
      | none => none
      | some (pre, post) => some (c :: pre, post)

/-- `RepoId` (`main.rs:98-99`): newtype around the canonical
`"org/repo"` string. -/
structure RepoId where
  val : List Char
  deriving DecidableEq, Repr

/-- `RepoId::new` (`main.rs:102-104`): `format!("{org}/{repo}")`. -/
def RepoId.new (org repo : List Char) : RepoId :=
  ⟨org ++ '/' :: repo⟩

/-- error raised by `RepoId::parse` when the input has no slash
(`main.rs:109`, spec name `InvalidFormat`). -/
inductive ParseError where
  | invalidFormat
  deriving DecidableEq, Repr

/-- `RepoId::parse` (`main.rs:106-111`): `split_once('/')`, error when
absent, otherwise `RepoId::new` on the two pieces. -/
def RepoId.parse (input : List Char) : Except ParseError RepoId :=
  match splitOnce '/' input with
  | none => .error .invalidFormat
  | some (org, repo) => .ok (RepoId.new org repo)

/-- `impl fmt::Display for RepoId` (`main.rs:118-122`): writes the
wrapped string unchanged. -/
def RepoId.toString (r : RepoId) : List Char :=
  r.val

/- ## Lemmas about `splitOnce` -/

theorem splitOnce_eq_none_iff (sep : Char) :
    ∀ l : List Char, splitOnce sep l = none ↔ sep ∉ l := by
  intro l
  induction l with
  | nil => simp [splitOnce]
  | cons c rest ih =>
    by_cases hc : c = sep
    · subst hc
      simp [splitOnce]
    · cases h : splitOnce sep rest with
      | none =>
        rw [h] at ih
        simp [splitOnce, hc, h, Ne.symm hc, (ih.mp rfl)]
      | some p =>
        have hmem : sep ∈ rest := by
          by_contra hn
          rw [ih.mpr hn] at h
          exact Option.noConfusion h
        simp [splitOnce, hc, h, hmem]

theorem splitOnce_reassemble (sep : Char) :
    ∀ l pre post : List Char,
      splitOnce sep l = some (pre, post) → l = pre ++ sep :: post := by
  intro l
  induction l with
  | nil => intro pre post h; simp [splitOnce] at h
  | cons c rest ih =>
    intro pre post h
    by_cases hc : c = sep
    · subst hc
      simp [splitOnce] at h
      obtain ⟨h1, h2⟩ := h
      subst h1; subst h2; rfl
    · simp only [splitOnce, if_neg hc] at h
      cases hsp : splitOnce sep rest with
      | none => rw [hsp] at h; exact Option.noConfusion h
      | some p =>
        obtain ⟨a, b⟩ := p
        rw [hsp] at h
        simp only [Option.some.injEq, Prod.mk.injEq] at h
        obtain ⟨h1, h2⟩ := h
        rw [← h1, ← h2, ih a b hsp]
        rfl

theorem splitOnce_first (sep : Char) :
    ∀ pre post : List Char, sep ∉ pre →
      splitOnce sep (pre ++ sep :: post) = some (pre, post) := by
  intro pre
  induction pre with
  | nil => intro post _; simp [splitOnce]
  | cons c cs ih =>
    intro post hmem
    have hc : c ≠ sep := fun h => hmem (h ▸ List.mem_cons_self c cs)
    have hcs : sep ∉ cs := fun h => hmem (List.mem_cons_of_mem c h)
    rw [List.cons_append, splitOnce, if_neg hc, ih post hcs]

/- ## Manifest fetching (`HfFetcher::fetch_manifest`) -/

/-- one entry of the metadata response (`main.rs:136-139`). -/
structure HfFile where
  rfilename : List Char
  deriving DecidableEq, Repr

/-- decoded metadata response body (`main.rs:140-143`). -/
structure HfModelsJson where
  siblings : List HfFile
  deriving DecidableEq, Repr

/-- manifest of available files (`main.rs:132-135`). -/
structure HfLfsManifest where
  files : List (List Char)
  deriving DecidableEq, Repr

/-- `HfFetcher::fetch_manifest` (`main.rs:53-64`) on a successfully
decoded metadata response: maps each sibling to its `rfilename` and
collects the results in order. -/
def fetch_manifest (models_json : HfModelsJson) : HfLfsManifest :=
  ⟨models_json.siblings.map HfFile.rfilename⟩

/- ## URL-derived identifiers (`repo_id_from_url`) -/

/-- errors of `repo_id_from_url` (`main.rs:151-163`): URL parse failure,
`"No path detected"`, and `"Insufficient path segments"`. -/
inductive UrlError where
  | invalidUrl
  | noPath
  | insufficientPathSegments
  deriving DecidableEq, Repr

/-- core of `repo_id_from_url` (`main.rs:151-163`) over the result of
the external `Url::parse` / `path_segments()` pair: `.error` when the
URL fails to parse, `.ok none` when `path_segments()` is `None`,
`.ok (some parts)` otherwise.  The source checks `path_parts.len() < 2`
and then reads `path_parts[0]` and `path_parts[1]`; this is rendered as
a match on the first two elements. -/
def repo_id_from_parsed (parsed : Except Unit (Option (List (List Char)))) :
    Except UrlError RepoId :=
  match parsed with
  | .error _ => .error .invalidUrl
  | .ok none => .error .noPath
  | .ok (some path_parts) =>
    match path_parts with
    | user_or_org :: repo :: _ => .ok (RepoId.new user_or_org repo)
    | _ => .error .insufficientPathSegments

/-- strips `pat` from the front of `l`, or `none` if `l` does not start
with `pat`. -/
def stripLeading : List Char → List Char → Option (List Char)
  | [], l => some l
  | _ :: _, [] => none
  | p :: ps, c :: cs => if p = c then stripLeading ps cs else none

/-- splits `l` at every occurrence of `sep` (model of how
`Url::path_segments()` cuts the path on `/`). -/
def splitAll (sep : Char) : List Char → List (List Char)
  | [] => [[]]
  | c :: rest =>
    if c = sep then [] :: splitAll sep rest
    else
      match splitAll sep rest with
      | [] => [[c]]
      | g :: gs => (c :: g) :: gs

/-- model of the external `url` crate's `Url::parse` followed by
`path_segments()`, restricted to plain `http(s)://host[/path]` URLs with
a non-empty host and no query or fragment (the only forms the spec's
examples use): a host with no path yields the single empty segment
(the crate normalises the path to `"/"`), otherwise the path after the
host is cut on `/`. -/
def urlPathSegments (s : List Char) : Except Unit (Option (List (List Char))) :=
  match stripLeading "https://".data s with
  | some rest => urlHostAndPath rest
  | none =>
    match stripLeading "http://".data s with
    | some rest => urlHostAndPath rest
    | none => .error ()
where
  urlHostAndPath (rest : List Char) : Except Unit (Option (List (List Char))) :=
    match splitOnce '/' rest with
    | none => if rest = [] then .error () else .ok (some [[]])
    | some (host, path) =>
      if host = [] then .error () else .ok (some (splitAll '/' path))

/-- `repo_id_from_url` (`main.rs:151-163`): URL parsing composed with
the segment logic. -/
def repo_id_from_url (url : List Char) : Except UrlError RepoId :=
  repo_id_from_parsed (urlPathSegments url)

/- ## Download (`HfFetcher::download_model`) -/

/-- errors of `download_model` (`main.rs:66-94`): file creation failure
(spec `IoError`), transport failure of either request (`NetworkError`),
absent `content-length` header (`MissingContentLength`), unparsable
header value (`DecodeError`), and a failed stream copy
(`TransferError`). -/
inductive DlError where
  | ioError
  | networkError
  | missingContentLength
  | decodeError
  | transferError
  deriving DecidableEq, Repr

/-- external actions performed by `download_model`, in order:
`File::create` (`main.rs:68`), the HEAD request (`main.rs:72`), the GET
request (`main.rs:90`). -/
inductive Event where
  | createDest
  | headRequest
  | getRequest
  deriving DecidableEq, Repr

/-- one read step of the GET response body: a chunk of bytes, or a
read/write failure. -/
inductive StreamStep where
  | chunk : List Nat → StreamStep
  | ioFail : StreamStep
  deriving DecidableEq, Repr

/-- outcomes of the external actions `download_model` performs:
whether `File::create` succeeds, the transport outcome of the HEAD
request together with its `content-length` header value when present,
and the transport outcome of the GET request together with its body
stream. -/
structure DownloadEnv where
  createOk : Bool
  headResult : Except Unit (Option (List Char))
  getResult : Except Unit (List StreamStep)

/-- model of Rust `str::parse::<u64>`: optional leading `+`, then one or
more ASCII digits, value below `2^64` (`main.rs:81`). -/
def parseU64 (s : List Char) : Option Nat :=
  let t := match s with
    | '+' :: rest => rest
    | _ => s
  match t with
  | [] => none
  | _ =>
    match parseU64Digits t 0 with
    | none => none
    | some n => if n < 2 ^ 64 then some n else none
where
  parseU64Digits : List Char → Nat → Option Nat
    | [], acc => some acc
    | c :: rest, acc =>
      if c.isDigit then parseU64Digits rest (acc * 10 + (c.toNat - '0'.toNat))
      else none

/-- model of `std::io::copy` through the progress wrapper into the
destination writer (`main.rs:92`): consumes the stream step by step,
appending each chunk to the destination, and stops at the first failed
step; returns the bytes written and whether the copy completed. -/
def ioCopy : List StreamStep → List Nat × Bool
  | [] => ([], true)
  | .chunk bs :: rest =>
    let r := ioCopy rest
    (bs ++ r.1, r.2)
  | .ioFail :: _ => ([], false)

/-- observable outcome of one `download_model` call: the returned
result, the external actions issued in order, and the destination-file
content (`none` when the file was never created). -/
structure DlOutcome where
  result : Except DlError Unit
  events : List Event
  fileContent : Option (List Nat)
  deriving Repr

/-- `HfFetcher::download_model` (`main.rs:66-94`) over a `DownloadEnv`:
creates/truncates the destination first, then issues the HEAD request,
reads and parses the `content-length` header, issues the GET request,
and copies the body to the destination. -/
def download_model (env : DownloadEnv) : DlOutcome :=
  match env.createOk with
  | false => ⟨.error .ioError, [.createDest], none⟩
  | true =>
    match env.headResult with
    | .error _ => ⟨.error .networkError, [.createDest, .headRequest], some []⟩
    | .ok none =>
      ⟨.error .missingContentLength, [.createDest, .headRequest], some []⟩
    | .ok (some header_value) =>
      match parseU64 header_value with
      | none => ⟨.error .decodeError, [.createDest, .headRequest], some []⟩
      | some _ =>
        match env.getResult with
        | .error _ =>
          ⟨.error .networkError, [.createDest, .headRequest, .getRequest],
            some []⟩
        | .ok steps =>
          let copied := ioCopy steps
          ⟨if copied.2 then .ok () else .error .transferError,
            [.createDest, .headRequest, .getRequest], some copied.1⟩

/- ## Copy lemmas -/

theorem ioCopy_all_chunks :
    ∀ chunks : List (List Nat),
      ioCopy (chunks.map StreamStep.chunk) = (chunks.flatten, true) := by
  intro chunks
  induction chunks with
  | nil => rfl
  | cons c cs ih => simp [ioCopy, ih]

theorem ioCopy_fail_after :
    ∀ (pre : List (List Nat)) (rest : List StreamStep),
      ioCopy (pre.map StreamStep.chunk ++ .ioFail :: rest) =
        (pre.flatten, false) := by
  intro pre rest
  induction pre with
  | nil => rfl
  | cons c cs ih => simp [ioCopy, ih]

/- ## Claim theorems -/

/-- C1: for all non-empty `owner` and `name` with no `/` in `name`,
`RepoId::parse (owner ++ "/" ++ name)` succeeds with a `RepoId` whose
`Display` rendering equals `owner ++ "/" ++ name`. -/
theorem parse_toString_roundtrip (owner name : List Char)
    (howner : owner ≠ []) (hname : name ≠ []) (hslash : '/' ∉ name) :
    ∃ r : RepoId,
      RepoId.parse (owner ++ '/' :: name) = .ok r ∧
      r.toString = owner ++ '/' :: name := by
  have hmem : '/' ∈ owner ++ '/' :: name := by
    simp
  have hne : splitOnce '/' (owner ++ '/' :: name) ≠ none := by
    intro h
    exact (splitOnce_eq_none_iff '/' (owner ++ '/' :: name)).mp h hmem
  obtain ⟨p, hp⟩ := Option.ne_none_iff_exists.mp hne
  obtain ⟨a, b⟩ := p
  have hre := splitOnce_reassemble '/' (owner ++ '/' :: name) a b hp.symm
  refine ⟨RepoId.new a b, ?_, ?_⟩
  · unfold RepoId.parse
    rw [← hp]
  · unfold RepoId.new RepoId.toString
    exact hre.symm

/-- witness for C1 at `owner = "org"`, `name = "repo"`. -/
theorem parse_toString_roundtrip_witness :
    ∃ r : RepoId,
      RepoId.parse ("org".data ++ '/' :: "repo".data) = .ok r ∧
      r.toString = "org".data ++ '/' :: "repo".data :=
  parse_toString_roundtrip "org".data "repo".data (by decide) (by decide)
    (by decide)

/-- C2: `RepoId::parse` on any input without a `/` fails with the
`InvalidFormat` error and never returns a `RepoId`. -/
theorem parse_no_slash_fails (s : List Char) (h : '/' ∉ s) :
    RepoId.parse s = .error .invalidFormat := by
  unfold RepoId.parse
  rw [(splitOnce_eq_none_iff '/' s).mpr h]

/-- witness for C2 at `s = "norepo"`. -/
theorem parse_no_slash_fails_witness :
    RepoId.parse "norepo".data = .error .invalidFormat :=
  parse_no_slash_fails "norepo".data (by decide)

/-- C3: on input containing a `/`, `RepoId::parse` splits at the first
`/` only: the part before the first `/` becomes the owner and the whole
remainder, further slashes included, becomes the name. -/
theorem parse_splits_on_first_slash (pre post : List Char)
    (h : '/' ∉ pre) :
    splitOnce '/' (pre ++ '/' :: post) = some (pre, post) ∧
    RepoId.parse (pre ++ '/' :: post) = .ok (RepoId.new pre post) := by
  have hsp := splitOnce_first '/' pre post h
  refine ⟨hsp, ?_⟩
  unfold RepoId.parse
  rw [hsp]

/-- witness for C3: `"org/repo/extra"` splits into owner `"org"` and
name `"repo/extra"`. -/
theorem parse_splits_on_first_slash_witness :
    splitOnce '/' ("org".data ++ '/' :: "repo/extra".data) =
      some ("org".data, "repo/extra".data) ∧
    RepoId.parse ("org".data ++ '/' :: "repo/extra".data) =
      .ok (RepoId.new "org".data "repo/extra".data) :=
  parse_splits_on_first_slash "org".data "repo/extra".data (by decide)

/-- C10: `RepoId::parse` succeeds on every input containing a `/`, even
when a segment is empty (`"/"`, `"/name"`, `"owner/"` all parse), and
the two-segment constructor `RepoId::new` never rejects empty
segments. -/
theorem parse_accepts_empty_segments :
    (∀ l : List Char, '/' ∈ l → ∃ r : RepoId, RepoId.parse l = .ok r) ∧
    RepoId.parse "/".data = .ok (RepoId.new [] []) ∧
    RepoId.parse "/name".data = .ok (RepoId.new [] "name".data) ∧
    RepoId.parse "owner/".data = .ok (RepoId.new "owner".data []) ∧
    (∀ org repo : List Char, (RepoId.new org repo).val = org ++ '/' :: repo) := by
  refine ⟨?_, rfl, rfl, rfl, fun org repo => rfl⟩
  intro l hmem
  have hne : splitOnce '/' l ≠ none := by
    intro h
    exact (splitOnce_eq_none_iff '/' l).mp h hmem
  obtain ⟨p, hp⟩ := Option.ne_none_iff_exists.mp hne
  obtain ⟨a, b⟩ := p
  refine ⟨RepoId.new a b, ?_⟩
  unfold RepoId.parse
  rw [← hp]

/-- witness for C10 at `l = "/"`. -/
theorem parse_accepts_empty_segments_witness :
    ('/' ∈ "/".data) ∧ ∃ r : RepoId, RepoId.parse "/".data = .ok r :=
  ⟨by decide, parse_accepts_empty_segments.1 "/".data (by decide)⟩

/-- C4: on a parsed URL with at least two path segments,
`repo_id_from_url` builds the identifier from exactly the first two
segments and discards the rest; in particular
`"https://host/org/repo/tree/main"` yields the identifier
`"org/repo"`. -/
theorem from_url_first_two_segments :
    (∀ (a b : List Char) (rest : List (List Char)),
      repo_id_from_parsed (.ok (some (a :: b :: rest))) =
        .ok (RepoId.new a b)) ∧
    repo_id_from_url "https://host/org/repo/tree/main".data =
      .ok (RepoId.new "org".data "repo".data) ∧
    (RepoId.new "org".data "repo".data).toString = "org/repo".data := by
  refine ⟨fun a b rest => rfl, rfl, by decide⟩

/-- C5: on a parsed URL with fewer than two path segments,
`repo_id_from_url` fails with the `"Insufficient path segments"` error;
in particular `"https://host"` (whose normalised path contributes a
single empty segment) fails with it. -/
theorem from_url_insufficient_segments :
    (∀ parts : List (List Char), parts.length < 2 →
      repo_id_from_parsed (.ok (some parts)) =
        .error .insufficientPathSegments) ∧
    urlPathSegments "https://host".data = .ok (some [[]]) ∧
    repo_id_from_url "https://host".data =
      .error .insufficientPathSegments := by
  refine ⟨?_, rfl, rfl⟩
  intro parts hlen
  match parts with
  | [] => rfl
  | [a] => rfl
  | a :: b :: rest => simp at hlen; omega

/-- witness for C5 at the empty segment list. -/
theorem from_url_insufficient_segments_witness :
    ([] : List (List Char)).length < 2 ∧
    repo_id_from_parsed (.ok (some [])) =
      .error .insufficientPathSegments :=
  ⟨by decide, from_url_insufficient_segments.1 [] (by decide)⟩

/-- C6: on a successful metadata response, `fetch_manifest` returns
exactly the `rfilename` of each entry, in the order provided, with
nothing added or removed. -/
theorem fetch_manifest_exact_filenames (j : HfModelsJson) :
    (fetch_manifest j).files.length = j.siblings.length ∧
    (∀ i (h1 : i < (fetch_manifest j).files.length)
        (h2 : i < j.siblings.length),
      (fetch_manifest j).files.get ⟨i, h1⟩ =
        (j.siblings.get ⟨i, h2⟩).rfilename) := by
  constructor
  · simp [fetch_manifest]
  · intro i h1 h2
    simp [fetch_manifest]

/-- witness for C6 on a two-entry response. -/
theorem fetch_manifest_exact_filenames_witness :
    (fetch_manifest ⟨[⟨"a".data⟩, ⟨"b".data⟩]⟩).files.get ⟨1, by decide⟩ =
      (([⟨"a".data⟩, ⟨"b".data⟩] : List HfFile).get ⟨1, by decide⟩).rfilename :=
  (fetch_manifest_exact_filenames ⟨[⟨"a".data⟩, ⟨"b".data⟩]⟩).2 1 (by decide)
    (by decide)

/-- C7: `download_model` attempts to create/truncate the destination
before any network request (the first event of every run is
`createDest`), and when creation fails it returns `IoError` with no
network request ever issued. -/
theorem download_opens_before_network (env : DownloadEnv) :
    (download_model env).events.head? = some .createDest ∧
    (env.createOk = false →
      (download_model env).result = .error .ioError ∧
      Event.headRequest ∉ (download_model env).events ∧
      Event.getRequest ∉ (download_model env).events) := by
  obtain ⟨c, hd, g⟩ := env
  cases c with
  | false =>
    refine ⟨rfl, fun _ => ⟨rfl, ?_, ?_⟩⟩ <;> simp [download_model]
  | true =>
    refine ⟨?_, fun h => Bool.noConfusion h⟩
    cases hd with
    | error e => rfl
    | ok o =>
      cases o with
      | none => rfl
      | some hv =>
        cases hp : parseU64 hv with
        | none => simp [download_model, hp]
        | some n =>
          cases g with
          | error e => simp [download_model, hp]
          | ok steps => simp [download_model, hp]

/-- witness for C7 at an environment whose destination cannot be
created. -/
theorem download_opens_before_network_witness :
    (download_model ⟨false, .ok none, .ok []⟩).result = .error .ioError ∧
    Event.headRequest ∉ (download_model ⟨false, .ok none, .ok []⟩).events :=
  ⟨((download_opens_before_network ⟨false, .ok none, .ok []⟩).2 rfl).1,
    ((download_opens_before_network ⟨false, .ok none, .ok []⟩).2 rfl).2.1⟩

/-- C8: when the HEAD response succeeds but carries no `content-length`
header, `download_model` fails with `MissingContentLength` and never
issues the GET request; when the header value does not parse as a
`u64`, it fails with the decode error. -/
theorem download_header_errors (env : DownloadEnv) :
    (env.createOk = true → env.headResult = .ok none →
      (download_model env).result = .error .missingContentLength ∧
      Event.getRequest ∉ (download_model env).events) ∧
    (∀ hv : List Char, env.createOk = true →
      env.headResult = .ok (some hv) → parseU64 hv = none →
      (download_model env).result = .error .decodeError) := by
  obtain ⟨c, hd, g⟩ := env
  constructor
  · intro hc hh
    simp only at hc hh
    subst hc; subst hh
    exact ⟨rfl, by simp [download_model]⟩
  · intro hv hc hh hp
    simp only at hc hh
    subst hc; subst hh
    simp [download_model, hp]

/-- witness for C8: a header-less HEAD response and an unparsable
header value. -/
theorem download_header_errors_witness :
    (download_model ⟨true, .ok none, .ok []⟩).result =
      .error .missingContentLength ∧
    (download_model ⟨true, .ok (some "x".data), .ok []⟩).result =
      .error .decodeError :=
  ⟨((download_header_errors ⟨true, .ok none, .ok []⟩).1 rfl rfl).1,
    (download_header_errors ⟨true, .ok (some "x".data), .ok []⟩).2 "x".data
      rfl rfl (by decide)⟩

/-- C9: with a valid size probe, a mid-stream read/write failure makes
`download_model` fail with `TransferError` and leaves in the
destination exactly the bytes written before the failure (no cleanup,
no truncation, no silent success), while a failure-free stream
succeeds and writes exactly the bytes of the source stream. -/
theorem download_midstream_failure (hv : List Char) (n : Nat)
    (hp : parseU64 hv = some n) :
    (∀ (pre : List (List Nat)) (rest : List StreamStep),
      (download_model ⟨true, .ok (some hv),
          .ok (pre.map StreamStep.chunk ++ .ioFail :: rest)⟩).result =
        .error .transferError ∧
      (download_model ⟨true, .ok (some hv),
          .ok (pre.map StreamStep.chunk ++ .ioFail :: rest)⟩).fileContent =
        some pre.flatten) ∧
    (∀ chunks : List (List Nat),
      (download_model ⟨true, .ok (some hv),
          .ok (chunks.map StreamStep.chunk)⟩).result = .ok () ∧
      (download_model ⟨true, .ok (some hv),
          .ok (chunks.map StreamStep.chunk)⟩).fileContent =
        some chunks.flatten) := by
  constructor
  · intro pre rest
    constructor <;>
      simp [download_model, hp, ioCopy_fail_after]
  · intro chunks
    constructor <;>
      simp [download_model, hp, ioCopy_all_chunks]

/-- witness for C9: header `"7"`, stream `[[1, 2]]` then a failure. -/
theorem download_midstream_failure_witness :
    (download_model ⟨true, .ok (some "7".data),
        .ok ([[1, 2]].map StreamStep.chunk ++ .ioFail :: [])⟩).fileContent =
      some ([[1, 2]] : List (List Nat)).flatten :=
  ((download_midstream_failure "7".data 7 (by decide)).1 [[1, 2]] []).2
